import Mathlib

/-!
Verification of the session lifecycle and durability subsystem of the
csv-editor repository: the operation history engine
(`src/csv_editor/models/history_manager.py`), the session layer
(`src/csv_editor/models/csv_session.py`) and the autosave scheduler
(`src/csv_editor/models/auto_save.py`).

The Python classes are embedded shallowly: each mutating method becomes a
pure Lean function from the old state to the new state (together with the
value the method returns).  Datasets (pandas DataFrames) are treated as
opaque values of a type parameter `δ`; `DataFrame.copy()` is the identity on
such values.  Wall-clock readings (`datetime.utcnow()`) are passed in as
explicit `Nat` arguments.  The file system touched by the autosave manager
is a list of (name, mtime) records.
-/

namespace CsvEditor

/-- One entry of the history log (`OperationHistory` in history_manager.py).
Only the fields the verified claims touch are kept: the unique time-ordered
operation id (modelled as a `Nat` issued by a counter), the operation kind
tag, and the optional full dataset snapshot.  The opaque `details`,
`timestamp` and `metadata` payloads play no role in any claim. -/
structure OperationHistory (δ : Type) where
  operationId : Nat
  operationType : String
  snapshot : Option δ
  deriving DecidableEq, Repr

/-- State of `HistoryManager` (history_manager.py lines 69-97) for in-memory
storage.  `currentIndex` is an `Int` because the Python cursor rests at `-1`
when the log position is before the first entry.  `nextOpId` stands for the
time-ordered unique id generator (the Python code derives ids from
timestamps). -/
structure HistoryManager (δ : Type) where
  maxHistory : Nat := 100
  enableSnapshots : Bool := true
  snapshotInterval : Nat := 5
  history : List (OperationHistory δ) := []
  currentIndex : Int := -1
  redoStack : List (OperationHistory δ) := []
  nextOpId : Nat := 0
  deriving DecidableEq, Repr

namespace HistoryManager

variable {δ : Type}

/-- `HistoryManager.can_undo` (history_manager.py lines 239-241). -/
def canUndo (m : HistoryManager δ) : Bool :=
  decide (0 ≤ m.currentIndex)

/-- `HistoryManager.can_redo` (history_manager.py lines 243-245). -/
def canRedo (m : HistoryManager δ) : Bool :=
  !m.redoStack.isEmpty

/-- `HistoryManager.add_operation` (history_manager.py lines 182-237):
clear the redo stack, truncate the log above the cursor, append a new entry
(snapshotting when `len(history) % snapshot_interval == 0` or the log is
empty), advance the cursor, and evict one entry from the front when the log
exceeds `max_history` (shifting the cursor down by one).  Returns the new
operation id together with the new state. -/
def addOperation (m : HistoryManager δ) (operationType : String)
    (currentData : Option δ) : Nat × HistoryManager δ :=
  let hist :=
    if m.currentIndex < (m.history.length : Int) - 1 then
      m.history.take (m.currentIndex + 1).toNat
    else m.history
  let operationId := m.nextOpId
  let takeSnapshot :=
    m.enableSnapshots && currentData.isSome &&
      (hist.length % m.snapshotInterval == 0 || hist.length == 0)
  let entry : OperationHistory δ :=
    { operationId := operationId, operationType := operationType,
      snapshot := if takeSnapshot then currentData else none }
  let hist2 := hist ++ [entry]
  let idx := m.currentIndex + 1
  if m.maxHistory < hist2.length then
    (operationId,
      { m with history := hist2.drop 1, currentIndex := idx - 1,
               redoStack := [], nextOpId := m.nextOpId + 1 })
  else
    (operationId,
      { m with history := hist2, currentIndex := idx,
               redoStack := [], nextOpId := m.nextOpId + 1 })

/-- Backward scan for the nearest snapshot at or before index `i`
(the loop `for i in range(current_index, -1, -1)` at history_manager.py
lines 261-264 and 338-351). -/
def findSnapshotBack (hist : List (OperationHistory δ)) : Nat → Option δ
  | 0 => hist[0]?.bind (fun e => e.snapshot)
  | i + 1 =>
    match hist[i + 1]?.bind (fun e => e.snapshot) with
    | some s => some s
    | none => findSnapshotBack hist i

/-- Result of the snapshot scan performed by `undo` after the cursor has
been decremented: scan from the new cursor position down to index 0, or
nothing when the new cursor is `-1` (history_manager.py lines 259-264). -/
def undoSnapshotScan (m : HistoryManager δ) : Option δ :=
  let idx := m.currentIndex - 1
  if 0 ≤ idx then findSnapshotBack m.history idx.toNat else none

/-- `HistoryManager.undo` (history_manager.py lines 247-273): push the
current entry onto the redo stack, decrement the cursor, scan backward for
the nearest snapshot, and return the undone entry, the snapshot (if any)
and the new state.  The `none` branch of the lookup of the current entry is
unreachable for states whose cursor is in bounds (the Python code would
raise an `IndexError` there); reachable states keep the cursor in bounds. -/
def undo (m : HistoryManager δ) :
    Option (OperationHistory δ) × Option δ × HistoryManager δ :=
  if m.canUndo then
    match m.history[m.currentIndex.toNat]? with
    | none => (none, none, m)
    | some currentOp =>
      let snapshot := m.undoSnapshotScan
      (some currentOp, snapshot,
        { m with redoStack := m.redoStack ++ [currentOp],
                 currentIndex := m.currentIndex - 1 })
  else (none, none, m)

/-- `HistoryManager.redo` (history_manager.py lines 275-299): pop the redo
stack, increment the cursor, and return the entry together with the
snapshot stored at the new cursor position, if any. -/
def redo (m : HistoryManager δ) :
    Option (OperationHistory δ) × Option δ × HistoryManager δ :=
  match m.redoStack.getLast? with
  | none => (none, none, m)
  | some operation =>
    let idx := m.currentIndex + 1
    let snapshot :=
      if idx < (m.history.length : Int) then
        m.history[idx.toNat]?.bind (fun e => e.snapshot)
      else none
    (some operation, snapshot,
      { m with redoStack := m.redoStack.dropLast, currentIndex := idx })

/-- `HistoryManager.restore_to_operation` (history_manager.py lines
323-354): locate the entry with the given id, scan backward from it for the
nearest snapshot; when one is found, move the cursor to the target index and
clear the redo stack; when the id is unknown or no snapshot exists the state
is left unchanged and `none` is returned. -/
def restoreToOperation (m : HistoryManager δ) (operationId : Nat) :
    Option δ × HistoryManager δ :=
  match m.history.findIdx? (fun e => e.operationId == operationId) with
  | none => (none, m)
  | some targetIndex =>
    match findSnapshotBack m.history targetIndex with
    | some s =>
      (some s, { m with currentIndex := (targetIndex : Int), redoStack := [] })
    | none => (none, m)

end HistoryManager

/-- State of `CSVSession` (csv_session.py lines 19-52) restricted to the
fields the history claims touch: the live dataset, the pristine copy made at
load time, the owned history manager (constructed with snapshots enabled and
`snapshot_interval=5`, csv_session.py lines 47-52), and the
`metadata["needs_autosave"]` dirty flag. -/
structure CSVSession (δ : Type) where
  df : Option δ := none
  originalDf : Option δ := none
  historyManager : HistoryManager δ := {}
  needsAutosave : Bool := false
  deriving DecidableEq, Repr

namespace CSVSession

variable {δ : Type}

/-- `CSVSession.record_operation` (csv_session.py lines 93-116): when a
dataset is present, add an entry to the history manager with the live
dataset as candidate snapshot, then set the `needs_autosave` flag. -/
def recordOperation (s : CSVSession δ) (operationType : String) :
    CSVSession δ :=
  let s :=
    if s.df.isSome then
      { s with historyManager := (s.historyManager.addOperation operationType s.df).2 }
    else s
  { s with needsAutosave := true }

/-- `CSVSession.load_data` (csv_session.py lines 62-72): install the
dataset as both live and original copy, then record a load operation. -/
def loadData (s : CSVSession δ) (d : δ) : CSVSession δ :=
  ({ s with df := some d, originalDf := some d }).recordOperation "load"

/-- One discrete edit as performed by the tool layer (for example
transformations.py line 98-104): replace the live dataset wholesale, then
record the operation in the history manager. -/
def applyEdit (s : CSVSession δ) (newDf : δ) (operationType : String) :
    CSVSession δ :=
  ({ s with df := some newDf }).recordOperation operationType

/-- Structured result of the session-level undo/redo calls
(csv_session.py lines 214-282): a success flag and the error message of the
failure branches. -/
structure StepResult where
  success : Bool
  error : Option String := none
  deriving DecidableEq, Repr

/-- `CSVSession.undo` (csv_session.py lines 214-247): fail when the manager
cannot undo; otherwise run the manager's undo and, when a snapshot was
found, install it as the live dataset.  When no snapshot is found the call
reports failure and leaves the dataset unchanged, but the manager state
keeps the mutation performed by `HistoryManager.undo`. -/
def sessionUndo (s : CSVSession δ) : StepResult × CSVSession δ :=
  if !s.historyManager.canUndo then
    ({ success := false, error := some "No operations to undo" }, s)
  else
    let r := s.historyManager.undo
    match r.2.1 with
    | some d =>
      ({ success := true }, { s with df := some d, historyManager := r.2.2 })
    | none =>
      ({ success := false, error := some "No snapshot available for undo" },
        { s with historyManager := r.2.2 })

/-- `CSVSession.redo` (csv_session.py lines 249-282), mirror image of
`sessionUndo`. -/
def sessionRedo (s : CSVSession δ) : StepResult × CSVSession δ :=
  if !s.historyManager.canRedo then
    ({ success := false, error := some "No operations to redo" }, s)
  else
    let r := s.historyManager.redo
    match r.2.1 with
    | some d =>
      ({ success := true }, { s with df := some d, historyManager := r.2.2 })
    | none =>
      ({ success := false, error := some "No snapshot available for redo" },
        { s with historyManager := r.2.2 })

/-- Iterated session-level undo. -/
def undoN (s : CSVSession δ) : Nat → CSVSession δ
  | 0 => s
  | n + 1 => undoN (s.sessionUndo).2 n

/-- Run a sequence of discrete edits, each replacing the live dataset and
recording the operation. -/
def runEdits (s : CSVSession δ) (edits : List δ) : CSVSession δ :=
  edits.foldl (fun t d => t.applyEdit d "edit") s

end CSVSession

open HistoryManager CSVSession

/-- Fresh session whose history manager is configured with the given history
bound and snapshot interval (csv_session.py lines 47-52 fixes the interval to
5 and leaves `max_history` at its default of 100). -/
def mkSession (δ : Type) (M k : Nat) : CSVSession δ :=
  { historyManager := { maxHistory := M, snapshotInterval := k } }

section Scenario

/-- Session of the §8 scenario after loading rows `[{v:1},{v:2}]` (a row is
modelled by its `v` value). -/
def c1Loaded : CSVSession (List Nat) :=
  (mkSession (List Nat) 100 5).loadData [1, 2]

/-- Scenario state after edit A (double every `v`). -/
def c1AfterA : CSVSession (List Nat) := c1Loaded.applyEdit [2, 4] "transform"

/-- Scenario state after edit B (drop row 0). -/
def c1AfterB : CSVSession (List Nat) := c1AfterA.applyEdit [4] "remove_row"

/-- First scenario undo. -/
def c1Undo1 : StepResult × CSVSession (List Nat) := c1AfterB.sessionUndo

/-- Second scenario undo. -/
def c1Undo2 : StepResult × CSVSession (List Nat) := (c1Undo1.2).sessionUndo

/-- First scenario redo. -/
def c1Redo1 : StepResult × CSVSession (List Nat) := (c1Undo2.2).sessionRedo

/-- Second scenario redo. -/
def c1Redo2 : StepResult × CSVSession (List Nat) := (c1Redo1.2).sessionRedo

end Scenario

/-- C1 (counterexample): in the §8 scenario the first `undo()` does not
restore `[{v:2},{v:4}]`.  With `snapshot_interval = 5` only the load entry
holds a snapshot, so the backward snapshot scan lands on the original
dataset `[{v:1},{v:2}]`. -/
theorem C1_counterexample :
    c1Undo1.2.df = some [1, 2] ∧ c1Undo1.2.df ≠ some [2, 4] := by
  constructor
  · rfl
  · decide

/-- C1 (amended): in the §8 scenario, the first undo succeeds but restores
the load snapshot `[{v:1},{v:2}]`; the second undo again restores
`[{v:1},{v:2}]` and `can_undo()` is still true afterwards; both redo calls
fail with "No snapshot available for redo", leaving the dataset at
`[{v:1},{v:2}]`. -/
theorem C1_amended_scenario :
    c1Undo1.1.success = true ∧ c1Undo1.2.df = some [1, 2] ∧
    c1Undo2.1.success = true ∧ c1Undo2.2.df = some [1, 2] ∧
    c1Undo2.2.historyManager.canUndo = true ∧
    c1Redo1.1.success = false ∧ c1Redo2.1.success = false ∧
    c1Redo2.2.df = some [1, 2] := by
  refine ⟨rfl, rfl, rfl, rfl, rfl, rfl, rfl, rfl⟩

section UndoCorrectness

variable {δ : Type}

/-- The backward snapshot scan finds a snapshot whenever the entry at index
0 carries one. -/
lemma findSnapshotBack_isSome (hist : List (OperationHistory δ))
    (e : OperationHistory δ) (h0 : hist[0]? = some e)
    (hs : e.snapshot.isSome = true) :
    ∀ i, (findSnapshotBack hist i).isSome = true := by
  intro i
  induction i with
  | zero =>
    unfold HistoryManager.findSnapshotBack
    rw [h0]
    simpa using hs
  | succ j ih =>
    rw [show findSnapshotBack hist (j + 1) =
        (match hist[j + 1]?.bind (fun e => e.snapshot) with
         | some s => some s
         | none => findSnapshotBack hist j) from rfl]
    cases h : hist[j + 1]?.bind (fun e => e.snapshot) with
    | none => exact ih
    | some s => rfl

/-- `add_operation` in the no-truncation, no-eviction regime: the log grows
by exactly one entry at the end, the cursor advances by one, the redo stack
is cleared and the configuration is unchanged. -/
lemma addOperation_append (m : HistoryManager δ) (t : String) (d : Option δ)
    (hc : m.currentIndex = (m.history.length : Int) - 1)
    (hm : m.history.length + 1 ≤ m.maxHistory) :
    ∃ e : OperationHistory δ,
      (m.addOperation t d).2.history = m.history ++ [e] ∧
      (m.addOperation t d).2.currentIndex = m.currentIndex + 1 ∧
      (m.addOperation t d).2.redoStack = [] ∧
      (m.addOperation t d).2.maxHistory = m.maxHistory := by
  have h1 : ¬ (m.currentIndex < (m.history.length : Int) - 1) := by
    rw [hc]
    exact lt_irrefl _
  have h2 : ¬ (m.maxHistory < m.history.length + 1) := by omega
  simp only [HistoryManager.addOperation, if_neg h1, List.length_append,
    List.length_singleton, if_neg h2]
  exact ⟨_, rfl, trivial, trivial, trivial⟩

/-- Running edits from a state whose cursor sits at the end of the log keeps
the head entry, grows the log by one per edit and advances the cursor, as
long as the log stays within `max_history`. -/
lemma runEdits_inv (edits : List δ) :
    ∀ (s : CSVSession δ) (n : Nat),
    s.historyManager.currentIndex = (n : Int) →
    s.historyManager.history.length = n + 1 →
    n + 1 + edits.length ≤ s.historyManager.maxHistory →
    (s.runEdits edits).historyManager.currentIndex = ((n + edits.length : Nat) : Int) ∧
    (s.runEdits edits).historyManager.history.length = n + edits.length + 1 ∧
    (s.runEdits edits).historyManager.history[0]? =
      s.historyManager.history[0]? := by
  induction edits with
  | nil =>
    intro s n hc hl _
    exact ⟨by simpa [CSVSession.runEdits] using hc,
      by simpa [CSVSession.runEdits] using hl, by simp [CSVSession.runEdits]⟩
  | cons d rest ih =>
    intro s n hc hl hb
    simp only [List.length_cons] at hb
    have hstep : (s.applyEdit d "edit").historyManager =
        (s.historyManager.addOperation "edit" (some d)).2 := by
      simp [CSVSession.applyEdit, CSVSession.recordOperation]
    obtain ⟨e, he1, he2, he3, he4⟩ :=
      addOperation_append s.historyManager "edit" (some d)
        (by rw [hc, hl]; push_cast; ring) (by omega)
    have h1 : (s.applyEdit d "edit").historyManager.currentIndex =
        ((n + 1 : Nat) : Int) := by
      rw [hstep, he2, hc]; push_cast; ring
    have h2 : (s.applyEdit d "edit").historyManager.history.length =
        (n + 1) + 1 := by
      rw [hstep, he1]; simp [hl]
    have h3 : (s.applyEdit d "edit").historyManager.history[0]? =
        s.historyManager.history[0]? := by
      rw [hstep, he1]
      exact List.getElem?_append_left (by omega)
    have h4 : (s.applyEdit d "edit").historyManager.maxHistory =
        s.historyManager.maxHistory := by rw [hstep, he4]
    have hrun : s.runEdits (d :: rest) = (s.applyEdit d "edit").runEdits rest := rfl
    have hres := ih (s.applyEdit d "edit") (n + 1) h1 h2 (by rw [h4]; omega)
    refine ⟨?_, ?_, ?_⟩
    · rw [hrun, hres.1]; simp only [List.length_cons]; push_cast; ring
    · rw [hrun, hres.2.1]; simp only [List.length_cons]; omega
    · rw [hrun, hres.2.2, h3]

/-- Components of one session-level undo from a state that can undo and
whose cursor is in bounds: the log is unchanged, the cursor is decremented,
and the live dataset becomes the scanned snapshot when one is found. -/
lemma sessionUndo_components (s : CSVSession δ) (op : OperationHistory δ)
    (hcu : s.historyManager.canUndo = true)
    (hop : s.historyManager.history[s.historyManager.currentIndex.toNat]? =
      some op) :
    (s.sessionUndo).2.historyManager.history = s.historyManager.history ∧
    (s.sessionUndo).2.historyManager.currentIndex =
      s.historyManager.currentIndex - 1 ∧
    (s.sessionUndo).2.df =
      (if (s.historyManager.undoSnapshotScan).isSome then
        s.historyManager.undoSnapshotScan else s.df) := by
  unfold CSVSession.sessionUndo HistoryManager.undo
  rw [hcu, hop]
  cases hsc : s.historyManager.undoSnapshotScan with
  | none => simp [hsc]
  | some x => simp [hsc]

/-- After `n + 1` session undos from a state whose cursor is `n + 1` and
whose head entry snapshots `d`, the live dataset is `some d`: the backward
scan of the final undo starts at index 0 and finds the head snapshot. -/
lemma undoN_reaches_head (n : Nat) :
    ∀ (s : CSVSession δ) (e : OperationHistory δ) (d : δ),
    s.historyManager.currentIndex = ((n : Int) + 1) →
    ((n : Int) + 1) < (s.historyManager.history.length : Int) →
    s.historyManager.history[0]? = some e →
    e.snapshot = some d →
    (s.undoN (n + 1)).df = some d := by
  induction n with
  | zero =>
    intro s e d hc hlen h0 hs
    have hcu : s.historyManager.canUndo = true := by
      simp [HistoryManager.canUndo, hc]
    have hlt : 1 < s.historyManager.history.length := by omega
    have hget : s.historyManager.history[s.historyManager.currentIndex.toNat]? =
        some (s.historyManager.history.get ⟨1, hlt⟩) := by
      have ht : (((0 : Nat) : Int) + 1).toNat = 1 := by omega
      rw [hc, ht]
      exact List.getElem?_eq_getElem hlt
    have hscan : s.historyManager.undoSnapshotScan = some d := by
      unfold HistoryManager.undoSnapshotScan
      rw [hc]
      norm_num
      unfold HistoryManager.findSnapshotBack
      simp [h0, hs]
    obtain ⟨hh, hcix, hdf⟩ := sessionUndo_components s _ hcu hget
    show ((s.sessionUndo).2.undoN 0).df = some d
    rw [show (s.sessionUndo).2.undoN 0 = (s.sessionUndo).2 from rfl]
    rw [hdf, hscan]
    simp
  | succ k ih =>
    intro s e d hc hlen h0 hs
    have hcu : s.historyManager.canUndo = true := by
      simp [HistoryManager.canUndo, hc]
      omega
    have hlt : k + 2 < s.historyManager.history.length := by omega
    have hget : s.historyManager.history[s.historyManager.currentIndex.toNat]? =
        some (s.historyManager.history.get ⟨k + 2, hlt⟩) := by
      rw [hc]
      have h2' : (((k + 1 : Nat) : Int) + 1).toNat = k + 2 := by omega
      rw [h2']
      exact List.getElem?_eq_getElem hlt
    obtain ⟨hh, hcix, _⟩ := sessionUndo_components s _ hcu hget
    show ((s.sessionUndo).2.undoN (k + 1)).df = some d
    refine ih (s.sessionUndo).2 e d ?_ ?_ ?_ hs
    · rw [hcix, hc]; push_cast; ring
    · rw [hh]; omega
    · rw [hh, h0]

end UndoCorrectness

/-- C2: for every initially loaded dataset and every sequence of `N`
recorded edits that, together with the load record, stays within
`max_history` (so no eviction occurs; snapshots are enabled, any snapshot
interval), `N` successive session undos restore the pre-edit original
dataset: the load record always snapshots it at index 0, and the final
undo's backward scan reaches that snapshot. -/
theorem C2_edits_then_undos {δ : Type} (M k : Nat) (orig : δ)
    (edits : List δ) (h : edits.length + 1 ≤ M) :
    ((((mkSession δ M k).loadData orig).runEdits edits).undoN
        edits.length).df = some orig := by
  have hload : ((mkSession δ M k).loadData orig) =
      { df := some orig, originalDf := some orig, needsAutosave := true,
        historyManager :=
          { maxHistory := M, snapshotInterval := k,
            history := [⟨0, "load", some orig⟩], currentIndex := 0,
            redoStack := [], nextOpId := 1 } } := by
    unfold mkSession CSVSession.loadData CSVSession.recordOperation
      HistoryManager.addOperation
    have hM : ¬ (M < 1) := by omega
    simp [hM]
  cases edits with
  | nil => simp [CSVSession.undoN, CSVSession.runEdits, hload]
  | cons d rest =>
    have hinv := runEdits_inv (d :: rest) ((mkSession δ M k).loadData orig) 0
      (by rw [hload]; simp) (by rw [hload]; rfl)
      (by rw [hload]
          show 0 + 1 + (d :: rest).length ≤ M
          simp only [List.length_cons] at h ⊢
          omega)
    have h0 : (((mkSession δ M k).loadData orig).runEdits
        (d :: rest)).historyManager.history[0]? =
        some ⟨0, "load", some orig⟩ := by
      rw [hinv.2.2, hload]; rfl
    have hmain := undoN_reaches_head rest.length
      (((mkSession δ M k).loadData orig).runEdits (d :: rest))
      ⟨0, "load", some orig⟩ orig
      (by rw [hinv.1]; simp only [List.length_cons]; push_cast; ring)
      (by rw [hinv.2.1]; simp only [List.length_cons]; push_cast; omega)
      h0 rfl
    simpa using hmain

/-- Closed witness for C2 at the §8 scenario input. -/
theorem C2_edits_then_undos_witness :
    (([[2, 4], [4]] : List (List Nat)).length + 1 ≤ 100) ∧
    ((((mkSession (List Nat) 100 5).loadData [1, 2]).runEdits
        [[2, 4], [4]]).undoN ([[2, 4], [4]] : List (List Nat)).length).df =
      some [1, 2] :=
  ⟨by decide, C2_edits_then_undos 100 5 [1, 2] [[2, 4], [4]] (by decide)⟩

/-- One call against the history manager, as the session layer issues them.
A `record` always carries a dataset, matching the claims' hypothesis that a
dataset is present at each record. -/
inductive HistOp (δ : Type) where
  | record (operationType : String) (data : δ)
  | undo
  | redo
  | restore (operationId : Nat)
  deriving DecidableEq, Repr

/-- Apply one call, keeping only the resulting manager state. -/
def applyHistOp {δ : Type} (m : HistoryManager δ) : HistOp δ → HistoryManager δ
  | .record t d => (m.addOperation t (some d)).2
  | .undo => (m.undo).2.2
  | .redo => (m.redo).2.2
  | .restore i => (m.restoreToOperation i).2

/-- Run a sequence of calls from a starting state. -/
def runHistOps {δ : Type} (m : HistoryManager δ) (ops : List (HistOp δ)) :
    HistoryManager δ :=
  ops.foldl applyHistOp m

/-- Number of `record` calls in a sequence. -/
def recordCount {δ : Type} (ops : List (HistOp δ)) : Nat :=
  ops.countP (fun op => match op with | .record _ _ => true | _ => false)

/-- Fresh history manager with the given bound and snapshot interval
(the constructor defaults of history_manager.py lines 72-97, storage left
in memory). -/
def histInit (δ : Type) (M k : Nat) : HistoryManager δ :=
  { maxHistory := M, snapshotInterval := k }

/-- The entry at index 0 of the log exists and carries a snapshot. -/
def headSnapshotPresent {δ : Type} (m : HistoryManager δ) : Bool :=
  (m.history[0]?.bind (fun e => e.snapshot)).isSome

section ComponentLemmas

variable {δ : Type}

lemma recordCount_cons_record (t : String) (d : δ) (rest : List (HistOp δ)) :
    recordCount (HistOp.record t d :: rest) = recordCount rest + 1 := by
  simp [recordCount, List.countP_cons]

lemma recordCount_cons_undo (rest : List (HistOp δ)) :
    recordCount (HistOp.undo :: rest) = recordCount rest := by
  simp [recordCount, List.countP_cons]

lemma recordCount_cons_redo (rest : List (HistOp δ)) :
    recordCount (HistOp.redo :: rest) = recordCount rest := by
  simp [recordCount, List.countP_cons]

lemma recordCount_cons_restore (i : Nat) (rest : List (HistOp δ)) :
    recordCount (HistOp.restore i :: rest) = recordCount rest := by
  simp [recordCount, List.countP_cons]

/-- `undo` either leaves the state unchanged, or pushes the current entry
onto the redo stack and decrements the cursor. -/
lemma undo_components (m : HistoryManager δ) :
    (m.undo).2.2 = m ∨
    ∃ op, m.history[m.currentIndex.toNat]? = some op ∧ m.canUndo = true ∧
      (m.undo).2.2 = { m with redoStack := m.redoStack ++ [op],
                              currentIndex := m.currentIndex - 1 } := by
  unfold HistoryManager.undo
  split
  next hcu =>
    split
    next hop => exact Or.inl rfl
    next op hop => exact Or.inr ⟨op, hop, hcu, rfl⟩
  next hcu => exact Or.inl rfl

/-- `redo` either leaves the state unchanged (empty redo stack), or pops
the stack and increments the cursor. -/
lemma redo_components (m : HistoryManager δ) :
    (m.redo).2.2 = m ∨
    (m.redoStack ≠ [] ∧
      (m.redo).2.2 = { m with redoStack := m.redoStack.dropLast,
                              currentIndex := m.currentIndex + 1 }) := by
  unfold HistoryManager.redo
  split
  next hlast => exact Or.inl rfl
  next op hlast =>
    refine Or.inr ⟨?_, rfl⟩
    intro hnil
    rw [hnil] at hlast
    simp at hlast

/-- `restore_to_operation` either leaves the state unchanged, or moves the
cursor to the index of the named entry and clears the redo stack. -/
lemma restore_components (m : HistoryManager δ) (oid : Nat) :
    (m.restoreToOperation oid).2 = m ∨
    ∃ i, m.history.findIdx? (fun e => e.operationId == oid) = some i ∧
      (m.restoreToOperation oid).2 =
        { m with currentIndex := (i : Int), redoStack := [] } := by
  unfold HistoryManager.restoreToOperation
  split
  next hidx => exact Or.inl rfl
  next i hidx =>
    split
    next s hsnap => exact Or.inr ⟨i, hidx, rfl⟩
    next hsnap => exact Or.inl rfl

/-- `add_operation` never changes the configuration fields. -/
lemma addOperation_config (m : HistoryManager δ) (t : String) (d : Option δ) :
    (m.addOperation t d).2.enableSnapshots = m.enableSnapshots ∧
    (m.addOperation t d).2.maxHistory = m.maxHistory ∧
    (m.addOperation t d).2.snapshotInterval = m.snapshotInterval := by
  unfold HistoryManager.addOperation
  dsimp only
  repeat' split
  all_goals exact ⟨rfl, rfl, rfl⟩

/-- A `findIdx?` hit is an index into the list. -/
lemma findIdx?_lt_length {α : Type} (l : List α) (p : α → Bool) (i : Nat)
    (h : l.findIdx? p = some i) : i < l.length := by
  induction l generalizing i with
  | nil => simp [List.findIdx?] at h
  | cons a as ih =>
    rw [List.findIdx?_cons] at h
    by_cases hp : p a
    · simp [hp] at h
      simp only [List.length_cons, ← h]
      omega
    · simp [hp] at h
      obtain ⟨j, hj, hji⟩ := h
      have := ih j hj
      simp only [List.length_cons]
      omega

/-- Full characterization of the state produced by `add_operation`, with
the truncated prefix, the new entry and the eviction branch spelled out. -/
lemma addOperation_eq (m : HistoryManager δ) (t : String) (d : Option δ) :
    (m.addOperation t d).2 =
      (let hist := if m.currentIndex < (m.history.length : Int) - 1 then
          m.history.take (m.currentIndex + 1).toNat else m.history
       let entry : OperationHistory δ :=
         ⟨m.nextOpId, t,
           if m.enableSnapshots && d.isSome &&
               (hist.length % m.snapshotInterval == 0 || hist.length == 0)
           then d else none⟩
       if m.maxHistory < (hist ++ [entry]).length then
         { m with history := (hist ++ [entry]).drop 1,
                  currentIndex := m.currentIndex + 1 - 1,
                  redoStack := [], nextOpId := m.nextOpId + 1 }
       else
         { m with history := hist ++ [entry],
                  currentIndex := m.currentIndex + 1,
                  redoStack := [], nextOpId := m.nextOpId + 1 }) := by
  unfold HistoryManager.addOperation
  dsimp only
  repeat' split
  all_goals rfl

/-- `undo` never changes the log or the configuration fields. -/
lemma undo_keeps (m : HistoryManager δ) :
    (m.undo).2.2.history = m.history ∧
    (m.undo).2.2.maxHistory = m.maxHistory ∧
    (m.undo).2.2.enableSnapshots = m.enableSnapshots ∧
    (m.undo).2.2.snapshotInterval = m.snapshotInterval := by
  unfold HistoryManager.undo
  repeat' split
  all_goals exact ⟨rfl, rfl, rfl, rfl⟩

/-- `redo` never changes the log or the configuration fields. -/
lemma redo_keeps (m : HistoryManager δ) :
    (m.redo).2.2.history = m.history ∧
    (m.redo).2.2.maxHistory = m.maxHistory ∧
    (m.redo).2.2.enableSnapshots = m.enableSnapshots ∧
    (m.redo).2.2.snapshotInterval = m.snapshotInterval := by
  unfold HistoryManager.redo
  repeat' split
  all_goals exact ⟨rfl, rfl, rfl, rfl⟩

/-- `restore_to_operation` never changes the log or the configuration. -/
lemma restore_keeps (m : HistoryManager δ) (oid : Nat) :
    (m.restoreToOperation oid).2.history = m.history ∧
    (m.restoreToOperation oid).2.maxHistory = m.maxHistory ∧
    (m.restoreToOperation oid).2.enableSnapshots = m.enableSnapshots ∧
    (m.restoreToOperation oid).2.snapshotInterval = m.snapshotInterval := by
  unfold HistoryManager.restoreToOperation
  repeat' split
  all_goals exact ⟨rfl, rfl, rfl, rfl⟩

/-- Appending an entry to a (possibly truncated) prefix keeps a snapshot at
index 0: either the prefix is empty and the new entry must carry one, or
the prefix's head is the old head. -/
lemma head_snapshot_after_append (hist0 histAll : List (OperationHistory δ))
    (e : OperationHistory δ)
    (h0 : hist0 ≠ [] → hist0[0]? = histAll[0]?)
    (hh : histAll ≠ [] → (histAll[0]?.bind (fun x => x.snapshot)).isSome = true)
    (he : hist0 = [] → e.snapshot.isSome = true) :
    ((hist0 ++ [e])[0]?.bind (fun x => x.snapshot)).isSome = true := by
  cases hist0 with
  | nil => simpa using he rfl
  | cons a as =>
    rw [List.getElem?_append_left (by simp)]
    have h0' := h0 (by simp)
    rw [h0']
    apply hh
    intro hmn
    rw [hmn] at h0'
    simp at h0'

/-- When the log (plus the new entry) stays within `max_history`,
`add_operation` preserves the head-snapshot property and grows the log by
at most one entry. -/
lemma addOperation_headSnapshot (m : HistoryManager δ) (t : String) (d : δ)
    (hsnap : m.enableSnapshots = true)
    (hno : m.history.length + 1 ≤ m.maxHistory)
    (hhead : m.history ≠ [] → headSnapshotPresent m = true) :
    headSnapshotPresent (m.addOperation t (some d)).2 = true ∧
    (m.addOperation t (some d)).2.history.length ≤ m.history.length + 1 := by
  rw [headSnapshotPresent, addOperation_eq]
  dsimp only
  by_cases htr : m.currentIndex < (m.history.length : Int) - 1
  · simp only [if_pos htr, List.length_append, List.length_singleton]
    have hev : ¬ (m.maxHistory <
        (m.history.take (m.currentIndex + 1).toNat).length + 1) := by
      simp only [List.length_take]
      omega
    simp only [if_neg hev]
    constructor
    · apply head_snapshot_after_append _ m.history
      · intro hne
        apply List.getElem?_take_of_lt
        rcases Nat.eq_zero_or_pos (m.currentIndex + 1).toNat with h | h
        · rw [h] at hne; simp at hne
        · exact h
      · exact fun hx => hhead hx
      · intro hx
        rw [hx]
        simp [hsnap]
    · dsimp only
      simp only [List.length_append, List.length_singleton, List.length_take]
      omega
  · simp only [if_neg htr, List.length_append, List.length_singleton]
    have hev : ¬ (m.maxHistory < m.history.length + 1) := by omega
    simp only [if_neg hev]
    constructor
    · apply head_snapshot_after_append _ m.history
      · intro _; rfl
      · exact fun hx => hhead hx
      · intro hx
        rw [hx]
        simp [hsnap]
    · dsimp only
      simp only [List.length_append, List.length_singleton]
      omega

/-- Structural invariant maintained by every history-manager call: the log
never exceeds `max_history`, the cursor stays in `[-1, length)` (spec
invariants (b) and (d)), and the redo stack fits between the cursor and
the end of the log. -/
def cursorInv (m : HistoryManager δ) : Prop :=
  m.history.length ≤ m.maxHistory ∧
  -1 ≤ m.currentIndex ∧
  m.currentIndex < (m.history.length : Int) ∧
  (m.redoStack = [] ∨
    m.currentIndex + 1 + (m.redoStack.length : Int) ≤ (m.history.length : Int))

lemma cursorInv_record (m : HistoryManager δ) (t : String) (d : Option δ)
    (h : cursorInv m) : cursorInv ((m.addOperation t d).2) := by
  obtain ⟨hlen, hge, hlt, _⟩ := h
  rw [cursorInv, addOperation_eq]
  dsimp only
  by_cases htr : m.currentIndex < (m.history.length : Int) - 1
  · simp only [if_pos htr, List.length_append, List.length_singleton]
    by_cases hev : m.maxHistory <
        (m.history.take (m.currentIndex + 1).toNat).length + 1
    · simp only [if_pos hev]
      try dsimp only
      refine ⟨?_, ?_, ?_, Or.inl trivial⟩ <;>
        (try simp only [List.length_drop, List.length_append,
          List.length_singleton, List.length_take] at hev ⊢) <;> omega
    · simp only [if_neg hev]
      try dsimp only
      refine ⟨?_, ?_, ?_, Or.inl trivial⟩ <;>
        (try simp only [List.length_drop, List.length_append,
          List.length_singleton, List.length_take] at hev ⊢) <;> omega
  · simp only [if_neg htr, List.length_append, List.length_singleton]
    by_cases hev : m.maxHistory < m.history.length + 1
    · simp only [if_pos hev]
      try dsimp only
      refine ⟨?_, ?_, ?_, Or.inl trivial⟩ <;>
        (try simp only [List.length_drop, List.length_append,
          List.length_singleton] at hev ⊢) <;> omega
    · simp only [if_neg hev]
      try dsimp only
      refine ⟨?_, ?_, ?_, Or.inl trivial⟩ <;>
        (try simp only [List.length_drop, List.length_append,
          List.length_singleton] at hev ⊢) <;> omega

lemma cursorInv_undo (m : HistoryManager δ) (h : cursorInv m) :
    cursorInv ((m.undo).2.2) := by
  rcases undo_components m with heq | ⟨op, hop, hcu, heq⟩
  · rw [heq]; exact h
  · obtain ⟨hlen, hge, hlt, hredo⟩ := h
    have hc0 : (0 : Int) ≤ m.currentIndex := by
      have := of_decide_eq_true hcu
      exact this
    rw [heq]
    refine ⟨hlen, ?_, ?_, Or.inr ?_⟩
    · show -1 ≤ m.currentIndex - 1
      omega
    · show m.currentIndex - 1 < (m.history.length : Int)
      omega
    · show m.currentIndex - 1 + 1 + ((m.redoStack ++ [op]).length : Int) ≤
        (m.history.length : Int)
      simp only [List.length_append, List.length_singleton]
      rcases hredo with hnil | hbound
      · simp [hnil]
        omega
      · push_cast at hbound ⊢
        omega

lemma cursorInv_redo (m : HistoryManager δ) (h : cursorInv m) :
    cursorInv ((m.redo).2.2) := by
  rcases redo_components m with heq | ⟨hne, heq⟩
  · rw [heq]; exact h
  · obtain ⟨hlen, hge, hlt, hredo⟩ := h
    have hR : 1 ≤ m.redoStack.length := by
      cases hR0 : m.redoStack with
      | nil => exact absurd hR0 hne
      | cons a l => simp
    have hbound : m.currentIndex + 1 + (m.redoStack.length : Int) ≤
        (m.history.length : Int) := by
      rcases hredo with hnil | hb
      · exact absurd hnil hne
      · exact hb
    rw [heq]
    refine ⟨hlen, ?_, ?_, Or.inr ?_⟩
    · show -1 ≤ m.currentIndex + 1
      omega
    · show m.currentIndex + 1 < (m.history.length : Int)
      omega
    · show m.currentIndex + 1 + 1 + ((m.redoStack.dropLast).length : Int) ≤
        (m.history.length : Int)
      rw [List.length_dropLast]
      omega

lemma cursorInv_restore (m : HistoryManager δ) (oid : Nat) (h : cursorInv m) :
    cursorInv ((m.restoreToOperation oid).2) := by
  rcases restore_components m oid with heq | ⟨i, hidx, heq⟩
  · rw [heq]; exact h
  · obtain ⟨hlen, _, _, _⟩ := h
    have hi := findIdx?_lt_length _ _ _ hidx
    rw [heq]
    refine ⟨hlen, ?_, ?_, Or.inl rfl⟩
    · show (-1 : Int) ≤ (i : Int)
      omega
    · show (i : Int) < (m.history.length : Int)
      exact_mod_cast hi

lemma cursorInv_run (ops : List (HistOp δ)) :
    ∀ m : HistoryManager δ, cursorInv m → cursorInv (runHistOps m ops) := by
  induction ops with
  | nil => intro m h; exact h
  | cons op rest ih =>
    intro m h
    have hstep : cursorInv (applyHistOp m op) := by
      cases op with
      | record t d => exact cursorInv_record m t (some d) h
      | undo => exact cursorInv_undo m h
      | redo => exact cursorInv_redo m h
      | restore i => exact cursorInv_restore m i h
    exact ih (applyHistOp m op) hstep

lemma run_keeps_config (ops : List (HistOp δ)) :
    ∀ m : HistoryManager δ,
    (runHistOps m ops).maxHistory = m.maxHistory ∧
    (runHistOps m ops).enableSnapshots = m.enableSnapshots := by
  induction ops with
  | nil => intro m; exact ⟨rfl, rfl⟩
  | cons op rest ih =>
    intro m
    have hstep : (applyHistOp m op).maxHistory = m.maxHistory ∧
        (applyHistOp m op).enableSnapshots = m.enableSnapshots := by
      cases op with
      | record t d =>
        exact ⟨(addOperation_config m t (some d)).2.1,
          (addOperation_config m t (some d)).1⟩
      | undo => exact ⟨(undo_keeps m).2.1, (undo_keeps m).2.2.1⟩
      | redo => exact ⟨(redo_keeps m).2.1, (redo_keeps m).2.2.1⟩
      | restore i => exact ⟨(restore_keeps m i).2.1, (restore_keeps m i).2.2.1⟩
    have := ih (applyHistOp m op)
    exact ⟨this.1.trans hstep.1, this.2.trans hstep.2⟩

/-- `headSnapshotPresent` only looks at the log. -/
lemma headSnapshotPresent_congr (m m' : HistoryManager δ)
    (h : m'.history = m.history) :
    headSnapshotPresent m' = headSnapshotPresent m := by
  rw [headSnapshotPresent, headSnapshotPresent, h]

/-- Along any call sequence whose total number of records stays within
`max_history`, no eviction occurs, so a non-empty log always carries a
snapshot at index 0. -/
lemma c3_inv (ops : List (HistOp δ)) :
    ∀ (m : HistoryManager δ) (n : Nat),
    m.enableSnapshots = true →
    m.history.length ≤ n →
    n + recordCount ops ≤ m.maxHistory →
    (m.history ≠ [] → headSnapshotPresent m = true) →
    (runHistOps m ops).history.length ≤ n + recordCount ops ∧
    ((runHistOps m ops).history ≠ [] →
      headSnapshotPresent (runHistOps m ops) = true) := by
  induction ops with
  | nil =>
    intro m n _ hle _ hh
    exact ⟨by simpa [runHistOps, recordCount] using hle, hh⟩
  | cons op rest ih =>
    intro m n hsnap hle hb hh
    cases op with
    | record t d =>
      rw [recordCount_cons_record] at hb
      have hno : m.history.length + 1 ≤ m.maxHistory := by omega
      obtain ⟨hhd, hlen'⟩ := addOperation_headSnapshot m t d hsnap hno hh
      have hcfg := addOperation_config m t (some d)
      have hmain := ih (m.addOperation t (some d)).2 (n + 1)
        (by rw [hcfg.1, hsnap])
        (by omega)
        (by rw [hcfg.2.1]; omega)
        (fun _ => hhd)
      rw [show runHistOps m (HistOp.record t d :: rest) =
          runHistOps (m.addOperation t (some d)).2 rest from rfl,
        recordCount_cons_record]
      refine ⟨?_, hmain.2⟩
      have := hmain.1
      omega
    | undo =>
      rw [recordCount_cons_undo] at hb
      have hk := undo_keeps m
      have hmain := ih (m.undo).2.2 n
        (by rw [hk.2.2.1]; exact hsnap)
        (by rw [hk.1]; exact hle)
        (by rw [hk.2.1]; exact hb)
        (by intro hne
            rw [headSnapshotPresent_congr m _ hk.1]
            exact hh (by rwa [hk.1] at hne))
      rw [show runHistOps m (HistOp.undo :: rest) =
          runHistOps (m.undo).2.2 rest from rfl, recordCount_cons_undo]
      exact hmain
    | redo =>
      rw [recordCount_cons_redo] at hb
      have hk := redo_keeps m
      have hmain := ih (m.redo).2.2 n
        (by rw [hk.2.2.1]; exact hsnap)
        (by rw [hk.1]; exact hle)
        (by rw [hk.2.1]; exact hb)
        (by intro hne
            rw [headSnapshotPresent_congr m _ hk.1]
            exact hh (by rwa [hk.1] at hne))
      rw [show runHistOps m (HistOp.redo :: rest) =
          runHistOps (m.redo).2.2 rest from rfl, recordCount_cons_redo]
      exact hmain
    | restore i =>
      rw [recordCount_cons_restore] at hb
      have hk := restore_keeps m i
      have hmain := ih (m.restoreToOperation i).2 n
        (by rw [hk.2.2.1]; exact hsnap)
        (by rw [hk.1]; exact hle)
        (by rw [hk.2.1]; exact hb)
        (by intro hne
            rw [headSnapshotPresent_congr m _ hk.1]
            exact hh (by rwa [hk.1] at hne))
      rw [show runHistOps m (HistOp.restore i :: rest) =
          runHistOps (m.restoreToOperation i).2 rest from rfl,
        recordCount_cons_restore]
      exact hmain

end ComponentLemmas

/-- Call sequence that overflows the default `max_history = 100`: 101
records (the eviction drops the snapshotted entry 0, so the new head has no
snapshot) followed by 95 undos (bringing the cursor to 4, just above the
snapshotless prefix). -/
def c3Ops : List (HistOp (List Nat)) :=
  List.replicate 101 (HistOp.record "edit" [0]) ++
    List.replicate 95 HistOp.undo

/-- State reached by `c3Ops` from a fresh manager with the default
configuration (`max_history = 100`, `snapshot_interval = 5`). -/
def c3State : HistoryManager (List Nat) :=
  runHistOps (histInit (List Nat) 100 5) c3Ops

set_option maxRecDepth 40000 in
/-- C3 (counterexample): after 101 records on a default-configured manager
the log is non-empty but its entry 0 carries no snapshot (eviction removed
the snapshotted head), and one more `undo()` from the reached state is
possible (`can_undo()` true) yet returns no snapshot — the `MissingSnapshot`
failure is reachable. -/
theorem C3_counterexample :
    c3State.history ≠ [] ∧
    headSnapshotPresent c3State = false ∧
    c3State.canUndo = true ∧
    (c3State.undo).2.1 = none := by
  refine ⟨by decide, by decide, by decide, by decide⟩

/-- When the cursor is at least 1 and in bounds and entry 0 carries a
snapshot, `undo` finds a snapshot: the backward scan starts at the
decremented cursor, which is still at least 0 and so reaches entry 0. -/
lemma undo_finds_snapshot {δ : Type} (m : HistoryManager δ)
    (hc : 1 ≤ m.currentIndex)
    (hlt : m.currentIndex < (m.history.length : Int))
    (hhead : headSnapshotPresent m = true) :
    ((m.undo).2.1).isSome = true := by
  rw [headSnapshotPresent] at hhead
  obtain ⟨e, h0⟩ : ∃ e, m.history[0]? = some e := by
    cases h : m.history[0]? with
    | none => rw [h] at hhead; simp at hhead
    | some e => exact ⟨e, rfl⟩
  have hs : e.snapshot.isSome = true := by
    rw [h0] at hhead
    simpa using hhead
  have hcu : m.canUndo = true := decide_eq_true (by omega)
  have hbound : m.currentIndex.toNat < m.history.length := by omega
  have hscan : (m.undoSnapshotScan).isSome = true := by
    unfold HistoryManager.undoSnapshotScan
    rw [if_pos (show (0 : Int) ≤ m.currentIndex - 1 by omega)]
    exact findSnapshotBack_isSome m.history e h0 hs _
  unfold HistoryManager.undo
  rw [hcu, List.getElem?_eq_getElem hbound]
  simpa using hscan

/-- C3 (amended): with snapshots enabled and a dataset present at each
record, along every sequence of record, undo, redo and restore calls whose
total number of records stays within `max_history` (so that front-eviction
never occurs), a non-empty log carries a full dataset snapshot at entry 0,
and `undo()` finds a snapshot whenever the cursor before the call is at
least 1; the no-snapshot outcome of `undo()` remains reachable only when
undoing the entry at index 0 itself, where the backward scan starts below
the log (and, with eviction, the entry-0 invariant itself fails — see the
counterexample). -/
theorem C3_amended_entry0_snapshot (δ : Type) (M k : Nat)
    (ops : List (HistOp δ)) (h : recordCount ops ≤ M) :
    ((runHistOps (histInit δ M k) ops).history ≠ [] →
      headSnapshotPresent (runHistOps (histInit δ M k) ops) = true) ∧
    (1 ≤ (runHistOps (histInit δ M k) ops).currentIndex →
      (((runHistOps (histInit δ M k) ops).undo).2.1).isSome = true) := by
  have hhead := (c3_inv ops (histInit δ M k) 0 rfl (Nat.le_refl 0)
    (by simpa using h) (fun hx => absurd rfl hx)).2
  refine ⟨hhead, ?_⟩
  intro hc1
  obtain ⟨_, _, hlt, _⟩ := cursorInv_run ops (histInit δ M k)
    ⟨Nat.zero_le M, le_refl _, by simp [histInit], Or.inl rfl⟩
  have hne : (runHistOps (histInit δ M k) ops).history ≠ [] := by
    intro hnil
    rw [hnil] at hlt
    simp at hlt
    omega
  exact undo_finds_snapshot _ hc1 hlt (hhead hne)

/-- Number of entries one `add_operation` call evicts from the front of
the log: the length the log reaches after truncation and append, minus the
length it ends with. -/
def evictedBy {δ : Type} (m : HistoryManager δ) (t : String)
    (d : Option δ) : Nat :=
  ((if m.currentIndex < (m.history.length : Int) - 1 then
      m.history.take (m.currentIndex + 1).toNat
    else m.history).length + 1) - (m.addOperation t d).2.history.length

/-- One `add_operation` call evicts at most one entry and shifts the
cursor down by exactly the evicted count, never below `-1`. -/
lemma addOperation_cursor_shift {δ : Type} (m : HistoryManager δ)
    (t : String) (d : Option δ) (hge : -1 ≤ m.currentIndex) :
    evictedBy m t d ≤ 1 ∧
    (m.addOperation t d).2.currentIndex =
      m.currentIndex + 1 - (evictedBy m t d : Int) ∧
    -1 ≤ (m.addOperation t d).2.currentIndex := by
  unfold evictedBy
  rw [addOperation_eq]
  dsimp only
  by_cases htr : m.currentIndex < (m.history.length : Int) - 1
  · simp only [if_pos htr, List.length_append, List.length_singleton]
    by_cases hev : m.maxHistory <
        (m.history.take (m.currentIndex + 1).toNat).length + 1
    · simp only [if_pos hev]
      try dsimp only
      refine ⟨?_, ?_, ?_⟩ <;>
        (try simp only [List.length_drop, List.length_append,
          List.length_singleton, List.length_take]) <;> omega
    · simp only [if_neg hev]
      try dsimp only
      refine ⟨?_, ?_, ?_⟩ <;>
        (try simp only [List.length_drop, List.length_append,
          List.length_singleton, List.length_take]) <;> omega
  · simp only [if_neg htr, List.length_append, List.length_singleton]
    by_cases hev : m.maxHistory < m.history.length + 1
    · simp only [if_pos hev]
      try dsimp only
      refine ⟨?_, ?_, ?_⟩ <;>
        (try simp only [List.length_drop, List.length_append,
          List.length_singleton]) <;> omega
    · simp only [if_neg hev]
      try dsimp only
      refine ⟨?_, ?_, ?_⟩ <;>
        (try simp only [List.length_drop, List.length_append,
          List.length_singleton]) <;> omega

/-- C8: along every sequence of record, undo, redo and restore calls the
log length never exceeds `max_history` and the cursor never drops below
`-1`; a record step from the reached state evicts at most one entry from
the front and shifts the cursor down by exactly the number of evicted
entries, still never below `-1`. -/
theorem C8_bound_and_eviction_shift (δ : Type) (M k : Nat)
    (ops : List (HistOp δ)) (t : String) (d : δ) :
    (runHistOps (histInit δ M k) ops).history.length ≤ M ∧
    -1 ≤ (runHistOps (histInit δ M k) ops).currentIndex ∧
    evictedBy (runHistOps (histInit δ M k) ops) t (some d) ≤ 1 ∧
    ((runHistOps (histInit δ M k) ops).addOperation t (some d)).2.currentIndex =
      (runHistOps (histInit δ M k) ops).currentIndex + 1 -
        (evictedBy (runHistOps (histInit δ M k) ops) t (some d) : Int) ∧
    -1 ≤ ((runHistOps (histInit δ M k) ops).addOperation t
        (some d)).2.currentIndex := by
  have hinv := cursorInv_run ops (histInit δ M k)
    ⟨Nat.zero_le M, le_refl _, by simp [histInit], Or.inl rfl⟩
  have hcfg := run_keeps_config ops (histInit δ M k)
  obtain ⟨hlen, hge, _, _⟩ := hinv
  rw [hcfg.1] at hlen
  have hshift := addOperation_cursor_shift
    (runHistOps (histInit δ M k) ops) t (some d) hge
  exact ⟨hlen, hge, hshift.1, hshift.2.1, hshift.2.2⟩

/-- C10: when `undo()` runs with `can_undo()` true (and an in-bounds
cursor) but the backward snapshot scan comes up empty, the failure is not
atomic: the session reports failure and keeps its dataset, yet the manager
has already pushed the undone entry onto the redo stack and decremented
the cursor. -/
theorem C10_undo_failure_not_atomic {δ : Type} (s : CSVSession δ)
    (op : OperationHistory δ)
    (hcu : s.historyManager.canUndo = true)
    (hop : s.historyManager.history[s.historyManager.currentIndex.toNat]? =
      some op)
    (hscan : s.historyManager.undoSnapshotScan = none) :
    (s.sessionUndo).1.success = false ∧
    (s.sessionUndo).1.error = some "No snapshot available for undo" ∧
    (s.sessionUndo).2.df = s.df ∧
    (s.sessionUndo).2.historyManager.currentIndex =
      s.historyManager.currentIndex - 1 ∧
    (s.sessionUndo).2.historyManager.redoStack =
      s.historyManager.redoStack ++ [op] := by
  unfold CSVSession.sessionUndo HistoryManager.undo
  rw [hcu, hop]
  simp [hscan]

/-- Concrete session for the C10 witness: one snapshotless entry, cursor
at 0 (reachable after eviction, see `C3_counterexample`). -/
def c10Session : CSVSession (List Nat) :=
  { df := some [7],
    historyManager :=
      { history := [⟨0, "edit", none⟩], currentIndex := 0, redoStack := [] } }

/-- Closed witness for C10. -/
theorem C10_undo_failure_not_atomic_witness :
    (c10Session.historyManager.canUndo = true) ∧
    (c10Session.historyManager.history[
        c10Session.historyManager.currentIndex.toNat]? =
      some ⟨0, "edit", none⟩) ∧
    (c10Session.historyManager.undoSnapshotScan = none) ∧
    ((c10Session.sessionUndo).1.success = false ∧
     (c10Session.sessionUndo).1.error =
        some "No snapshot available for undo" ∧
     (c10Session.sessionUndo).2.df = c10Session.df ∧
     (c10Session.sessionUndo).2.historyManager.currentIndex =
        c10Session.historyManager.currentIndex - 1 ∧
     (c10Session.sessionUndo).2.historyManager.redoStack =
        c10Session.historyManager.redoStack ++ [⟨0, "edit", none⟩]) :=
  ⟨by decide, by decide, by decide,
    C10_undo_failure_not_atomic c10Session ⟨0, "edit", none⟩
      (by decide) (by decide) (by decide)⟩

/-- Concrete call sequence for the C3 witness: two records, leaving the
cursor at 1. -/
def c3WitnessOps : List (HistOp (List Nat)) :=
  [HistOp.record "load" [1, 2], HistOp.record "edit" [3]]

/-- Closed witness for the amended C3 at a concrete call sequence. -/
theorem C3_amended_entry0_snapshot_witness :
    (recordCount c3WitnessOps ≤ 100) ∧
    (((runHistOps (histInit (List Nat) 100 5) c3WitnessOps).history ≠ [] →
      headSnapshotPresent
        (runHistOps (histInit (List Nat) 100 5) c3WitnessOps) = true) ∧
     (1 ≤ (runHistOps (histInit (List Nat) 100 5)
          c3WitnessOps).currentIndex →
      (((runHistOps (histInit (List Nat) 100 5)
          c3WitnessOps).undo).2.1).isSome = true)) :=
  ⟨by decide,
    C3_amended_entry0_snapshot (List Nat) 100 5 c3WitnessOps (by decide)⟩

/-- `AutoSaveMode` (auto_save.py lines 16-22). -/
inductive AutoSaveMode where
  | disabled
  | afterOperation
  | periodic
  | hybrid
  deriving DecidableEq, Repr

/-- `AutoSaveStrategy` (auto_save.py lines 25-31). -/
inductive AutoSaveStrategy where
  | overwrite
  | backup
  | versioned
  | custom
  deriving DecidableEq, Repr

/-- `AutoSaveConfig` (auto_save.py lines 34-62).  The export format is kept
as its `.value` extension string; the default backup directory stands for
`os.path.join(os.getcwd(), ".csv_backups")`. -/
structure AutoSaveConfig where
  enabled : Bool := true
  mode : AutoSaveMode := .afterOperation
  strategy : AutoSaveStrategy := .overwrite
  intervalSeconds : Nat := 300
  maxBackups : Nat := 10
  backupDir : String := ".csv_backups"
  customPath : Option String := none
  fmt : String := "csv"
  encoding : String := "utf-8"
  deriving DecidableEq, Repr

/-- Mutable state of `AutoSaveManager` (auto_save.py lines 94-105).
`lastSave` holds the clock value of the last successful save; the asyncio
task handle and the per-session lock are modelled at the directory level
(see `SessionWorld`). -/
structure AutoSaveManager where
  sessionId : String
  config : AutoSaveConfig := {}
  originalFilePath : Option String := none
  lastSave : Nat := 0
  saveCount : Nat := 0
  deriving DecidableEq, Repr

/-- Zero-padded four-digit rendering of a version number (`{n:04d}`). -/
def pad4 (n : Nat) : String :=
  let s := toString n
  String.mk (List.replicate (4 - s.length) '0') ++ s

/-- One file of the modelled file system: a path and its modification
time. -/
structure FileRec where
  name : String
  mtime : Nat
  deriving DecidableEq, Repr

/-- File system as a list of files in creation order. -/
abbrev FS := List FileRec

/-- Write (or overwrite) a file, stamping it with the given time. -/
def writeFile (fs : FS) (name : String) (mtime : Nat) : FS :=
  fs.filter (fun f => !(f.name == name)) ++ [⟨name, mtime⟩]

/-- Character-list prefix test (structural, so that proofs can evaluate
it). -/
def isPrefixChars : List Char → List Char → Bool
  | [], _ => true
  | _ :: _, [] => false
  | p :: ps, c :: cs => p == c && isPrefixChars ps cs

/-- Occurrence of a character pattern anywhere in a character list. -/
def containsSub (pat : List Char) : List Char → Bool
  | [] => isPrefixChars pat []
  | c :: cs => isPrefixChars pat (c :: cs) || containsSub pat cs

/-- Substring containment on strings, standing for the glob pattern
`*pat*`. -/
def containsSeg (s pat : String) : Bool :=
  containsSub pat.data s.data

/-- String prefix test (`Path` containment in the backup directory). -/
def startsWithStr (s pre : String) : Bool :=
  isPrefixChars pre.data s.data

/-- Stable insertion into an mtime-ascending list (equal keys keep their
existing order, like Python's stable `list.sort`). -/
def insertByMtime (f : FileRec) : List FileRec → List FileRec
  | [] => [f]
  | g :: gs =>
    if f.mtime < g.mtime then f :: g :: gs else g :: insertByMtime f gs

/-- Ascending stable sort by modification time. -/
def sortByMtime (files : List FileRec) : List FileRec :=
  files.foldl (fun acc f => insertByMtime f acc) []

/-- Result dict returned by the save callback
(`CSVSession._save_callback`, csv_session.py lines 127-157), reduced to the
fields `trigger_save` inspects. -/
structure SaveCallbackResult where
  success : Bool
  error : Option String := none
  deriving DecidableEq, Repr

/-- Result dict of `AutoSaveManager.trigger_save`
(auto_save.py lines 157-178). -/
structure TriggerResult where
  success : Bool
  savePath : Option String := none
  error : Option String := none
  trigger : String
  saveCount : Option Nat := none
  deriving DecidableEq, Repr

namespace AutoSaveManager

/-- `AutoSaveManager._get_save_path` (auto_save.py lines 180-202); `now`
is the clock reading used for the backup timestamp.  Note the overwrite
strategy silently falls back to `session_{id}_autosave.csv` when no
original path is known. -/
def getSavePath (m : AutoSaveManager) (now : Nat) : String :=
  match m.config.strategy with
  | .custom => m.config.customPath.getD ("session_" ++ m.sessionId ++ ".csv")
  | .overwrite =>
    match m.originalFilePath with
    | some p => p
    | none => "session_" ++ m.sessionId ++ "_autosave.csv"
  | .backup =>
    m.config.backupDir ++ "/" ++
      ("backup_" ++ m.sessionId ++ "_" ++ toString now ++ "." ++ m.config.fmt)
  | .versioned =>
    m.config.backupDir ++ "/" ++
      ("version_" ++ m.sessionId ++ "_v" ++ pad4 (m.saveCount + 1) ++ "." ++
        m.config.fmt)

/-- `AutoSaveManager._cleanup_old_backups` (auto_save.py lines 204-231):
glob the backup directory for files whose name contains the session id,
sort them by mtime ascending, and unlink from the front until at most
`max_backups` remain. -/
def cleanupOldBackups (m : AutoSaveManager) (fs : FS) : FS :=
  let backupFiles := fs.filter (fun f =>
    startsWithStr f.name (m.config.backupDir ++ "/") &&
      containsSeg f.name m.sessionId)
  let sorted := sortByMtime backupFiles
  let doomed := sorted.take (sorted.length - m.config.maxBackups)
  fs.filter (fun f => !(doomed.any (fun g => g.name == f.name)))

/-- `AutoSaveManager.trigger_save` (auto_save.py lines 137-178).  The
callback receives the resolved path and the current file system; it either
returns the structured result dict (`Except.ok`) or raises
(`Except.error`), in both cases also yielding the file system it leaves
behind.  The whole body runs inside `try`/`except` under the per-session
lock (a single call is modelled): any exception becomes a structured
failure result, and the manager state advances only on success, when
retention pruning also runs for the backup and versioned strategies. -/
def triggerSave (m : AutoSaveManager) (now : Nat) (trigger : String)
    (cb : String → FS → Except String SaveCallbackResult × FS) (fs : FS) :
    TriggerResult × AutoSaveManager × FS :=
  let savePath := m.getSavePath now
  match cb savePath fs with
  | (.error e, fs1) =>
    ({ success := false, error := some e, trigger := trigger }, m, fs1)
  | (.ok result, fs1) =>
    if result.success then
      let m1 := { m with lastSave := now, saveCount := m.saveCount + 1 }
      let fs2 :=
        if m.config.strategy = .backup ∨ m.config.strategy = .versioned then
          cleanupOldBackups m1 fs1
        else fs1
      ({ success := true, savePath := some savePath, trigger := trigger,
         saveCount := some m1.saveCount }, m1, fs2)
    else
      ({ success := false, error := result.error, trigger := trigger },
        m, fs1)

/-- `AutoSaveManager.should_save_after_operation`
(auto_save.py lines 233-238). -/
def shouldSaveAfterOperation (m : AutoSaveManager) : Bool :=
  m.config.enabled &&
    decide (m.config.mode = AutoSaveMode.afterOperation ∨
      m.config.mode = AutoSaveMode.hybrid)

end AutoSaveManager

/-- `CSVSession.trigger_auto_save_if_needed` (csv_session.py lines
118-125): when the mode asks for a save after every operation and the
session is dirty, trigger a save and clear the dirty flag on success,
returning the structured result; the manager and the file system are
threaded explicitly. -/
def triggerAutoSaveIfNeeded {δ : Type} (s : CSVSession δ)
    (asm : AutoSaveManager) (now : Nat)
    (cb : String → FS → Except String SaveCallbackResult × FS) (fs : FS) :
    Option TriggerResult × CSVSession δ × AutoSaveManager × FS :=
  if asm.shouldSaveAfterOperation && s.needsAutosave then
    let r := asm.triggerSave now "after_operation" cb fs
    let s1 := if r.1.success then { s with needsAutosave := false } else s
    (some r.1, s1, r.2.1, r.2.2)
  else
    (none, s, asm, fs)

/-- C4: a failure inside the save path — here, the callback raising — is
caught by `trigger_save` and returned as a structured failure result
carrying the message; nothing is raised (the function is total and yields
a plain result value), the manager's counters are untouched, and the
session-level call an edit triggers completes normally with that result,
leaving the session itself unchanged. -/
theorem C4_autosave_failure_structured {δ : Type} (s : CSVSession δ)
    (asm : AutoSaveManager) (now : Nat) (fs : FS) (e : String)
    (cb : String → FS → Except String SaveCallbackResult × FS)
    (hcb : (cb (asm.getSavePath now) fs).1 = .error e)
    (hshould : asm.shouldSaveAfterOperation = true)
    (hneed : s.needsAutosave = true) :
    (asm.triggerSave now "after_operation" cb fs).1 =
      { success := false, error := some e, trigger := "after_operation" } ∧
    (asm.triggerSave now "after_operation" cb fs).2.1 = asm ∧
    (triggerAutoSaveIfNeeded s asm now cb fs).1 =
      some { success := false, error := some e,
             trigger := "after_operation" } ∧
    (triggerAutoSaveIfNeeded s asm now cb fs).2.1 = s := by
  have hpair : cb (asm.getSavePath now) fs =
      (.error e, (cb (asm.getSavePath now) fs).2) := by
    rw [← hcb]
  have htr : asm.triggerSave now "after_operation" cb fs =
      ({ success := false, error := some e, trigger := "after_operation" },
        asm, (cb (asm.getSavePath now) fs).2) := by
    unfold AutoSaveManager.triggerSave
    dsimp only
    conv_lhs => rw [hpair]
  refine ⟨by rw [htr], by rw [htr], ?_, ?_⟩ <;>
    · unfold triggerAutoSaveIfNeeded
      rw [hshould, hneed, htr]
      simp

/-- Callback that always raises, modelling an I/O error thrown mid-save. -/
def failingWriter : String → FS → Except String SaveCallbackResult × FS :=
  fun _ w => (.error "disk full", w)

/-- Default-configured manager for the C4 witness. -/
def c4Asm : AutoSaveManager := { sessionId := "s" }

/-- Dirty session for the C4 witness. -/
def c4Session : CSVSession (List Nat) := { needsAutosave := true }

/-- Closed witness for C4: a default-configured manager (overwrite on every
operation) whose save callback raises. -/
theorem C4_autosave_failure_structured_witness :
    ((failingWriter (c4Asm.getSavePath 0) []).1 = .error "disk full") ∧
    (c4Asm.shouldSaveAfterOperation = true) ∧
    (c4Session.needsAutosave = true) ∧
    ((c4Asm.triggerSave 0 "after_operation" failingWriter []).1 =
      { success := false, error := some "disk full",
        trigger := "after_operation" } ∧
     (c4Asm.triggerSave 0 "after_operation" failingWriter []).2.1 = c4Asm ∧
     (triggerAutoSaveIfNeeded c4Session c4Asm 0 failingWriter []).1 =
      some { success := false, error := some "disk full",
             trigger := "after_operation" } ∧
     (triggerAutoSaveIfNeeded c4Session c4Asm 0 failingWriter []).2.1 =
      c4Session) :=
  ⟨rfl, by decide, rfl,
    C4_autosave_failure_structured c4Session c4Asm 0 [] "disk full"
      failingWriter rfl (by decide) rfl⟩

/-- Writer that always succeeds and records the file with the given
mtime. -/
def okWriter (now : Nat) : String → FS → Except String SaveCallbackResult × FS :=
  fun p w => (.ok { success := true }, writeFile w p now)

/-- Overwrite-strategy manager with no original load path. -/
def c5Asm : AutoSaveManager :=
  { sessionId := "s1", config := { strategy := .overwrite },
    originalFilePath := none }

/-- C5 (counterexample): with the overwrite strategy and no original load
path, a save attempt does not fail with `NoSourcePath` (no such error
exists in auto_save.py): `_get_save_path` silently falls back to
`session_{id}_autosave.csv`, the save succeeds and that file is written. -/
theorem C5_counterexample :
    c5Asm.getSavePath 0 = "session_s1_autosave.csv" ∧
    (c5Asm.triggerSave 0 "manual" (okWriter 0) []).1.success = true ∧
    (c5Asm.triggerSave 0 "manual" (okWriter 0) []).2.2 =
      [⟨"session_s1_autosave.csv", 0⟩] := by
  refine ⟨by decide, by decide, by decide⟩

/-- C5 (amended): with the overwrite strategy and no original load path,
every save resolves to the fallback path `session_{id}_autosave.csv` and
proceeds there, reporting it as the save path on success. -/
theorem C5_amended_fallback_path (asm : AutoSaveManager) (now : Nat)
    (fs : FS)
    (hstrat : asm.config.strategy = AutoSaveStrategy.overwrite)
    (hnone : asm.originalFilePath = none) :
    asm.getSavePath now = "session_" ++ asm.sessionId ++ "_autosave.csv" ∧
    (asm.triggerSave now "manual" (okWriter now) fs).1.savePath =
      some ("session_" ++ asm.sessionId ++ "_autosave.csv") := by
  have hpath : asm.getSavePath now =
      "session_" ++ asm.sessionId ++ "_autosave.csv" := by
    unfold AutoSaveManager.getSavePath
    rw [hstrat, hnone]
  refine ⟨hpath, ?_⟩
  unfold AutoSaveManager.triggerSave
  simp [okWriter, hpath]

/-- Closed witness for the amended C5. -/
theorem C5_amended_fallback_path_witness :
    (c5Asm.config.strategy = AutoSaveStrategy.overwrite) ∧
    (c5Asm.originalFilePath = none) ∧
    c5Asm.getSavePath 0 = "session_" ++ c5Asm.sessionId ++ "_autosave.csv" ∧
    (c5Asm.triggerSave 0 "manual" (okWriter 0) []).1.savePath =
      some ("session_" ++ c5Asm.sessionId ++ "_autosave.csv") :=
  ⟨rfl, rfl,
    (C5_amended_fallback_path c5Asm 0 [] rfl rfl).1,
    (C5_amended_fallback_path c5Asm 0 [] rfl rfl).2⟩

/-- Run one save per listed timestamp through the succeeding writer,
threading the manager state and the file system. -/
def runSaves (asm : AutoSaveManager) (fs : FS) :
    List Nat → AutoSaveManager × FS
  | [] => (asm, fs)
  | t :: ts =>
    let r := asm.triggerSave t "after_operation" (okWriter t) fs
    runSaves r.2.1 r.2.2 ts

/-- Backup-strategy manager with a retention limit of 3. -/
def c6Asm : AutoSaveManager :=
  { sessionId := "sess",
    config := { strategy := .backup, maxBackups := 3, backupDir := "bk" } }

/-- C6: with the timestamped-backup strategy and `max_backups = 3`, after
5 successful saves (at strictly increasing timestamps) exactly the 3 most
recently created backup files of the session remain in the backup
directory: after each save, pruning sorts the session's backups by mtime
ascending and deletes oldest-first until at most `max_backups` remain. -/
theorem C6_backup_retention :
    (runSaves c6Asm [] [1, 2, 3, 4, 5]).2 =
      [⟨"bk/backup_sess_3.csv", 3⟩, ⟨"bk/backup_sess_4.csv", 4⟩,
       ⟨"bk/backup_sess_5.csv", 5⟩] := by
  decide

/-- Versioned-strategy manager with the default retention limit. -/
def c7Asm : AutoSaveManager :=
  { sessionId := "sess",
    config := { strategy := .versioned, backupDir := "bk" } }

/-- Path the versioned strategy writes for version number `c`, built with
the same associativity as `_get_save_path`. -/
def versionName (c : Nat) : String :=
  "bk" ++ "/" ++ ("version_" ++ "sess" ++ "_v" ++ pad4 c ++ "." ++ "csv")

/-- Save attempts against a manager, one per boolean: a `true` attempt
runs the succeeding writer, a `false` attempt raises.  Returns the list of
paths of the successful writes in order, together with the final manager
state. -/
def versionedRun (asm : AutoSaveManager) (fs : FS) :
    List Bool → List String × AutoSaveManager
  | [] => ([], asm)
  | b :: bs =>
    let cb := if b then okWriter 0 else failingWriter
    let r := asm.triggerSave 0 "auto" cb fs
    let rest := versionedRun r.2.1 r.2.2 bs
    ((if r.1.success then [(r.1.savePath).getD ""] else []) ++ rest.1,
      rest.2)

/-- Along any outcome sequence, the successful writes of a versioned
manager starting at count `c` hit `versionName (c+1), versionName (c+2),
…` in order, and the counter advances by exactly the number of
successes. -/
lemma versionedRun_spec (bs : List Bool) :
    ∀ (c : Nat) (fs : FS),
    (versionedRun { c7Asm with saveCount := c } fs bs).1 =
      (List.range (bs.count true)).map (fun j => versionName (c + j + 1)) ∧
    (versionedRun { c7Asm with saveCount := c } fs bs).2.saveCount =
      c + bs.count true := by
  induction bs with
  | nil => intro c fs; exact ⟨rfl, rfl⟩
  | cons b rest ih =>
    intro c fs
    cases b with
    | true =>
      have hstep :
          versionedRun { c7Asm with saveCount := c } fs (true :: rest) =
          (versionName (c + 1) ::
            (versionedRun { c7Asm with saveCount := c + 1 }
              (({ c7Asm with saveCount := c }).triggerSave 0 "auto"
                (okWriter 0) fs).2.2 rest).1,
           (versionedRun { c7Asm with saveCount := c + 1 }
              (({ c7Asm with saveCount := c }).triggerSave 0 "auto"
                (okWriter 0) fs).2.2 rest).2) := rfl
      rw [hstep]
      obtain ⟨ih1, ih2⟩ := ih (c + 1)
        (({ c7Asm with saveCount := c }).triggerSave 0 "auto"
          (okWriter 0) fs).2.2
      have hcount : (true :: rest).count true = rest.count true + 1 := by
        simp [List.count_cons]
      constructor
      · rw [ih1, hcount, List.range_succ_eq_map, List.map_cons, List.map_map]
        have htail : (List.range (rest.count true)).map
            (fun j => versionName (c + 1 + j + 1)) =
          (List.range (rest.count true)).map
            ((fun j => versionName (c + j + 1)) ∘ Nat.succ) := by
          apply List.map_congr_left
          intro j _
          simp only [Function.comp_apply]
          congr 1
          omega
        rw [htail]
        try simp
      · rw [ih2]
        omega
    | false =>
      have hstep :
          versionedRun { c7Asm with saveCount := c } fs (false :: rest) =
          versionedRun { c7Asm with saveCount := c } fs rest := rfl
      rw [hstep]
      obtain ⟨ih1, ih2⟩ := ih c fs
      have hcount : (false :: rest).count true = rest.count true := by
        simp [List.count_cons]
      exact ⟨by rw [ih1, hcount], by rw [ih2, hcount]⟩

/-- C7: with the monotonic-version strategy, the k-th successful save
(from a fresh manager, for every k and regardless of interleaved failed
attempts, which do not advance the counter) writes
`version_{session_id}_v{k:04d}.{ext}` in the backup directory, and the
save counter equals the number of successes; concretely, after 3 saves the
directory holds v0001, v0002, v0003 in that order. -/
theorem C7_versioned_numbering (bs : List Bool) :
    (versionedRun c7Asm [] bs).1 =
      (List.range (bs.count true)).map (fun j => versionName (j + 1)) ∧
    (versionedRun c7Asm [] bs).2.saveCount = bs.count true ∧
    (runSaves c7Asm [] [1, 2, 3]).2.map (fun f => f.name) =
      [versionName 1, versionName 2, versionName 3] := by
  have h := versionedRun_spec bs 0 []
  have h1 := h.1
  simp only [Nat.zero_add] at h1
  exact ⟨h1, by simpa using h.2, by decide⟩

/-- World of `SessionManager` (csv_session.py lines 352-412) projected to
what the lifecycle claims touch: the directory of sessions (id paired with
its last-access time) and the ids whose periodic autosave task is alive in
the event loop.  A task enters `runningTasks` when
`start_periodic_save` creates it and leaves only when
`stop_periodic_save` cancels it and awaits its termination. -/
structure SessionWorld where
  sessions : List (String × Nat) := []
  runningTasks : List String := []
  maxSessions : Nat := 100
  deriving DecidableEq, Repr

/-- `AutoSaveManager.stop_periodic_save` (auto_save.py lines 115-124) as
run by `CSVSession.clear` (csv_session.py lines 337-349): cancel the
session's periodic task and await its actual termination, so on return the
task is no longer alive. -/
def stopPeriodicTask (w : SessionWorld) (sid : String) : SessionWorld :=
  { w with runningTasks := w.runningTasks.filter (fun t => !(t == sid)) }

/-- `SessionManager.remove_session` (csv_session.py lines 387-394): when
the id is present, `clear()` the session — stopping and awaiting its
periodic task — then delete it from the directory; otherwise do nothing. -/
def removeSession (w : SessionWorld) (sid : String) : SessionWorld :=
  if (w.sessions.lookup sid).isSome then
    let w1 := stopPeriodicTask w sid
    { w1 with sessions := w1.sessions.filter (fun p => !(p.1 == sid)) }
  else w

/-- `SessionManager.create_session` (csv_session.py lines 362-374).  At
capacity the least-recently-accessed session is evicted with a bare
`del self.sessions[...]`: its `clear()` is never called, so its periodic
task keeps running.  (`_cleanup_expired` only marks ids for later cleanup
and changes no state modelled here.)  The new session starts with no
task. -/
def createSession (w : SessionWorld) (newSid : String) (now : Nat) :
    SessionWorld :=
  let w1 :=
    if w.maxSessions ≤ w.sessions.length then
      match w.sessions.foldl
          (fun best p =>
            match best with
            | none => some p
            | some q => if p.2 < q.2 then some p else some q) none with
      | some oldest =>
        { w with sessions := w.sessions.filter (fun p => !(p.1 == oldest.1)) }
      | none => w
    else w
  { w1 with sessions := w1.sessions ++ [(newSid, now)] }

/-- Looking a key up after filtering it out yields nothing. -/
lemma lookup_filter_ne {β : Type} (l : List (String × β)) (sid : String) :
    (l.filter (fun p => !(p.1 == sid))).lookup sid = none := by
  induction l with
  | nil => rfl
  | cons p rest ih =>
    by_cases hp : p.1 == sid
    · simpa [List.filter, hp] using ih
    · have hps : (sid == p.1) = false := by
        rw [beq_eq_false_iff_ne]
        intro h
        rw [h] at hp
        simp at hp
      simpa [List.filter, hp, List.lookup, hps] using ih

/-- Directory at capacity 1 holding session A with a running periodic
task. -/
def c9World : SessionWorld :=
  { sessions := [("A", 0)], runningTasks := ["A"], maxSessions := 1 }

/-- C9 (counterexample): capacity eviction inside `create_session` removes
the least-recently-accessed session with a bare `del`, without stopping
its periodic autosave task: after the eviction of session A, A is gone
from the directory but its task is still running. -/
theorem C9_counterexample :
    ((createSession c9World "B" 1).sessions.lookup "A" = none) ∧
    ("A" ∈ (createSession c9World "B" 1).runningTasks) := by
  refine ⟨by decide, by decide⟩

/-- C9 (amended): explicit removal of a present session stops its periodic
autosave task — cancelling it and awaiting its actual termination before
returning — so after `remove_session` neither the session nor its task
remains; capacity eviction in `create_session`, by contrast, deletes the
session without stopping its task (see the counterexample). -/
theorem C9_amended_remove_stops_task (w : SessionWorld) (sid : String)
    (hmem : (w.sessions.lookup sid).isSome = true) :
    ((removeSession w sid).sessions.lookup sid = none) ∧
    (sid ∉ (removeSession w sid).runningTasks) := by
  unfold removeSession stopPeriodicTask
  rw [if_pos hmem]
  constructor
  · exact lookup_filter_ne w.sessions sid
  · intro hmem'
    rw [List.mem_filter] at hmem'
    simp at hmem'

/-- Closed witness for the amended C9 at the concrete one-session world. -/
theorem C9_amended_remove_stops_task_witness :
    ((c9World.sessions.lookup "A").isSome = true) ∧
    ((removeSession c9World "A").sessions.lookup "A" = none) ∧
    ("A" ∉ (removeSession c9World "A").runningTasks) :=
  ⟨by decide,
    (C9_amended_remove_stops_task c9World "A" (by decide)).1,
    (C9_amended_remove_stops_task c9World "A" (by decide)).2⟩

end CsvEditor
